import Mathlib

/-!
# DayFlow — Timeline Reconciliation Engine, shallow embedding

Embedding of the reconciliation core of the DayFlow browser extension
(`popup.js`, `background.js`, and the `calendar.js` module): event
normalization, completion-override clamping, timeline classification,
derived progress values, the streak counter, and the 401 retry path of
the interactive loader.  Instants are modelled as integers (milliseconds
since the epoch, the value of `Date.prototype.getTime`); an invalid JS
`Date` is modelled as `none`.
-/

namespace DayFlow

/-- A canonical in-session event as built by `normalizeEvent` in `popup.js`
and mutated by `applyCompletedIds`: `id`, `title`, `start`/`end` instants,
and the `_manuallyCompleted` tag (absent = `false`). -/
structure Event where
  id : String
  title : String
  start : Int
  «end» : Int
  manuallyCompleted : Bool
deriving DecidableEq, Repr

/-- A JS `Date` value: a valid instant (ms since epoch) or Invalid Date. -/
abbrev JsDate := Option Int

/-- Normalizer output record (`popup.js` `normalizeEvent`): its `start` and
`end` come straight from the `Date` constructor, so they may be invalid. -/
structure NEvent where
  id : String
  title : String
  start : JsDate
  «end» : JsDate
deriving DecidableEq, Repr

/-- The `start` / `end` sub-object of a raw Google Calendar event; its
`dateTime` field is absent on all-day events. -/
structure RawStartEnd where
  dateTime : Option String
deriving DecidableEq, Repr

/-- A raw provider event object as consumed by `normalizeEvent`. -/
structure RawEvent where
  id : String
  summary : Option String
  start : Option RawStartEnd
  «end» : Option RawStartEnd
deriving DecidableEq, Repr

/-- JS truthiness test for an optional string: `undefined` and `""` are
falsy (`!startDT` in `normalizeEvent`). -/
def jsFalsy : Option String → Bool
  | none => true
  | some s => s = ""

/-- Decimal reading of a character list (used to model `Date` parsing). -/
def parseInstant : List Char → Nat → Option Nat
  | [], acc => some acc
  | c :: rest, acc =>
    if 48 ≤ c.toNat ∧ c.toNat ≤ 57 then parseInstant rest (acc * 10 + (c.toNat - 48))
    else none

/-- Model of the JS `Date` constructor (a host primitive, not repository
code) applied to a provider timestamp string: a string denoting an instant
parses to that instant — represented here by its decimal millisecond
value — and any other string is an Invalid Date. -/
def newDate (s : String) : JsDate :=
  match s.data with
  | [] => none
  | cs => (parseInstant cs 0).map Int.ofNat

/-- Function `normalizeEvent` from `popup.js` lines 55–65: skip (return `null`) when
either `raw.start?.dateTime` or `raw.end?.dateTime` is falsy, otherwise
build the event, defaulting the title to `"(no title)"` when `raw.summary`
is falsy. -/
def normalizeEvent (raw : RawEvent) : Option NEvent :=
  let startDT := raw.start.bind RawStartEnd.dateTime
  let endDT := raw.«end».bind RawStartEnd.dateTime
  if jsFalsy startDT || jsFalsy endDT then none
  else some
    { id := raw.id
      title := if jsFalsy raw.summary then "(no title)" else raw.summary.getD ""
      start := newDate (startDT.getD "")
      «end» := newDate (endDT.getD "") }

/-- The four-bucket result of `classifyEvents`. -/
structure Classified where
  current : Option Event
  next : Option Event
  upcoming : List Event
  past : List Event
deriving DecidableEq, Repr

/-- Function `classifyEvents` from `popup.js` lines 67–74: `current` is the first
event with `start <= now && end > now` (else `null`), `future` the events
with `start > now`, `next` is `future[0]`, `upcoming` is `future.slice(1)`,
`past` the events with `end <= now`. -/
def classifyEvents (events : List Event) (now : Int) : Classified :=
  let current := events.find? fun e => decide (e.start ≤ now) && decide (e.«end» > now)
  let future := events.filter fun e => decide (e.start > now)
  let next := future.head?
  let upcoming := future.tail
  let past := events.filter fun e => decide (e.«end» ≤ now)
  ⟨current, next, upcoming, past⟩

/-- A JS number as produced by the arithmetic in `eventProgress`: a finite
value (exact arithmetic), an infinity, or `NaN`. -/
inductive JsNum where
  | num (q : ℚ)
  | inf
  | ninf
  | nan
deriving DecidableEq, Repr

/-- JS division of finite values: division by zero gives `Infinity`,
`-Infinity` or `NaN` according to the sign of the numerator. -/
def jsDiv (a b : ℚ) : JsNum :=
  if b = 0 then
    if 0 < a then .inf else if a < 0 then .ninf else .nan
  else .num (a / b)

/-- Multiplication by the positive literal `100` (`(elapsed / total) * 100`). -/
def jsMul100 : JsNum → JsNum
  | .num q => .num (q * 100)
  | .inf => .inf
  | .ninf => .ninf
  | .nan => .nan

/-- JS `Math.max(0, x)`: `NaN` propagates, `-Infinity` clamps to `0`. -/
def jsMax0 : JsNum → JsNum
  | .num q => .num (max 0 q)
  | .inf => .inf
  | .ninf => .num 0
  | .nan => .nan

/-- JS `Math.min(100, x)`: `NaN` propagates, `Infinity` clamps to `100`. -/
def jsMin100 : JsNum → JsNum
  | .num q => .num (min 100 q)
  | .inf => .num 100
  | .ninf => .ninf
  | .nan => .nan

/-- Function `eventProgress` from `popup.js` lines 76–80:
`Math.min(100, Math.max(0, (elapsed / total) * 100))` with
`total = end - start`, `elapsed = now - start`. -/
def eventProgress (event : Event) (now : Int) : JsNum :=
  let total : ℚ := (event.«end» : ℚ) - (event.start : ℚ)
  let elapsed : ℚ := (now : ℚ) - (event.start : ℚ)
  jsMin100 (jsMax0 (jsMul100 (jsDiv elapsed total)))

/-- Function `applyCompletedIds` from `popup.js` lines 255–263: for each event whose
id is in the completed set and whose `end > now`, tag it manually completed
and set `end := min(end, now)`; all other events are untouched. -/
def applyCompletedIds (events : List Event) (completedIds : List String) (now : Int) :
    List Event :=
  events.map fun e =>
    if completedIds.contains e.id && decide (e.«end» > now) then
      { e with manuallyCompleted := true, «end» := min e.«end» now }
    else e

/-- The persisted streak record: the two `chrome.storage.local` keys
`streak` and `streakLastDate` (absent on first run). -/
structure StreakStore where
  streak : Option Nat
  streakLastDate : Option String
deriving DecidableEq, Repr

/-- Function `getStreak` from `popup.js` lines 152–160: `result.streak || 1` and
`result.streakLastDate || todayKey()` (JS `||` treats `0` and `""` as
absent). -/
def getStreak (s : StreakStore) (todayK : String) : Nat × String :=
  (match s.streak with
    | some c => if c = 0 then 1 else c
    | none => 1,
   match s.streakLastDate with
    | some d => if d = "" then todayK else d
    | none => todayK)

/-- Function `updateStreak` from `popup.js` lines 162–178, as a function of the
stored record and the computed `todayKey()` / yesterday key: if the stored
day is today return the stored count unchanged; else increment when the
stored day is yesterday, reset to 1 otherwise, and persist
`{streak, streakLastDate}` before returning. -/
def updateStreak (s : StreakStore) (todayK yKey : String) : Nat × StreakStore :=
  let p := getStreak s todayK
  if p.2 = todayK then (p.1, s)
  else
    let newStreak := if p.2 = yKey then p.1 + 1 else 1
    (newStreak, ⟨some newStreak, some todayK⟩)

/-- The background context's current-event selection, `background.js`
line 25: `events.find(e => start <= now && end > now)`. -/
def updateBadgeCurrent (events : List Event) (now : Int) : Option Event :=
  events.find? fun e => decide (e.start ≤ now) && decide (e.«end» > now)

/-- The background context's next-event selection, `background.js`
line 26: `events.find(e => start > now)`. -/
def updateBadgeNext (events : List Event) (now : Int) : Option Event :=
  events.find? fun e => decide (e.start > now)

/-- Errors thrown by `fetchTodayEvents`: the distinct `'UNAUTHORIZED'`
error, or `'Calendar API error: <status>'`. -/
inductive FetchError where
  | unauthorized
  | apiError (status : Nat)
deriving DecidableEq, Repr

/-- The status handling of `fetchTodayEvents` (`popup.js` lines 44–52,
module copy lines 54–66), as a function of the HTTP status and the raw
items of the response: throw `UNAUTHORIZED` on 401, throw a generic error
on any other non-2xx status (`res.ok`), otherwise normalize and filter. -/
def fetchTodayEvents (status : Nat) (items : List RawEvent) :
    Except FetchError (List NEvent) :=
  if status = 401 then .error .unauthorized
  else if ¬(200 ≤ status ∧ status < 300) then .error (.apiError status)
  else .ok (items.filterMap normalizeEvent)

/-- Errors surfaced by `loadAndRender`: a fetch error rethrown to the
caller, or a failure of the silent re-auth during the retry. -/
inductive LoadError where
  | fetch (e : FetchError)
  | auth (msg : String)
deriving DecidableEq, Repr

/-- The fetch/retry skeleton of `loadAndRender` (`popup.js` lines 226–235):
try the first fetch; on `UNAUTHORIZED` invalidate the token, silently
reacquire one (`reauth`), and retry the fetch exactly once with the new
token, surfacing whatever the retry produces; any other error is rethrown
without a retry. -/
def loadAndRender (first : Except FetchError (List NEvent))
    (reauth : Except String String)
    (retry : String → Except FetchError (List NEvent)) :
    Except LoadError (List NEvent) :=
  match first with
  | .ok evs => .ok evs
  | .error .unauthorized =>
    match reauth with
    | .error m => .error (.auth m)
    | .ok tok =>
      match retry tok with
      | .ok evs => .ok evs
      | .error e => .error (.fetch e)
  | .error e => .error (.fetch e)

/-- The event list is sorted by start time ascending (the provider
guarantee `orderBy: 'startTime'`). -/
abbrev sortedByStart (events : List Event) : Prop :=
  events.Pairwise fun a b => a.start ≤ b.start

/-- How many of the four buckets of a classification contain the event
`e` (each bucket contributes at most 1). -/
def inBuckets (e : Event) (c : Classified) : Nat :=
  (if c.current = some e then 1 else 0) +
  (if c.next = some e then 1 else 0) +
  (if e ∈ c.upcoming then 1 else 0) +
  (if e ∈ c.past then 1 else 0)

/-! ## Helper lemmas -/

/-- List `find?` returns the head of the filtered list (JS `find` versus
`filter(...)[0]`). -/
theorem find?_head?_filter {α : Type} (p : α → Bool) (l : List α) :
    l.find? p = (l.filter p).head? := by
  induction l with
  | nil => rfl
  | cons a t ih =>
    simp only [List.find?, List.filter]
    split <;> simp_all

/-- The per-event clamp of `applyCompletedIds` as a standalone function. -/
def clampOne (ids : List String) (now : Int) (e : Event) : Event :=
  if ids.contains e.id && decide (e.«end» > now) then
    { e with manuallyCompleted := true, «end» := min e.«end» now }
  else e

theorem applyCompletedIds_eq_map (events : List Event) (ids : List String) (now : Int) :
    applyCompletedIds events ids now = events.map (clampOne ids now) := rfl

theorem clampOne_of_neg {ids : List String} {now : Int} {e : Event}
    (h : ¬(ids.contains e.id && decide (e.«end» > now)) = true) :
    clampOne ids now e = e := by
  unfold clampOne; rw [if_neg h]

theorem clampOne_of_pos {ids : List String} {now : Int} {e : Event}
    (h : (ids.contains e.id && decide (e.«end» > now)) = true) :
    clampOne ids now e = { e with manuallyCompleted := true, «end» := min e.«end» now } := by
  unfold clampOne; rw [if_pos h]

theorem clampOne_idem (ids : List String) (now : Int) (e : Event) :
    clampOne ids now (clampOne ids now e) = clampOne ids now e := by
  by_cases h : (ids.contains e.id && decide (e.«end» > now)) = true
  · rw [clampOne_of_pos h]
    apply clampOne_of_neg
    simp only [Bool.and_eq_true, decide_eq_true_eq, not_and, not_lt]
    intro _
    exact min_le_right _ _
  · rw [clampOne_of_neg h, clampOne_of_neg h]

/-! ## C2 — idempotence of the override clamp -/

/-- C2: applying `applyCompletedIds` twice with the same events, override
id set, and `now` yields exactly the same event list as applying it once. -/
theorem applyCompletedIds_idempotent (events : List Event) (ids : List String) (now : Int) :
    applyCompletedIds (applyCompletedIds events ids now) ids now =
      applyCompletedIds events ids now := by
  simp only [applyCompletedIds_eq_map, List.map_map]
  exact List.map_congr_left fun e _ => clampOne_idem ids now e

/-! ## C3 — the clamp is monotone and leaves past events untouched -/

/-- C3: after `applyCompletedIds`, every event's `end` is at most its
original `end`; an event whose original `end` is already `≤ now` is left
completely unchanged and lands in the `past` bucket of a subsequent
classification, whether or not its id was in the override set. -/
theorem applyCompletedIds_monotone (events : List Event) (ids : List String) (now : Int) :
    (applyCompletedIds events ids now).length = events.length ∧
    ∀ i, (h1 : i < (applyCompletedIds events ids now).length) → (h2 : i < events.length) →
      ((applyCompletedIds events ids now)[i]).«end» ≤ (events[i]).«end» ∧
      ((events[i]).«end» ≤ now →
        (applyCompletedIds events ids now)[i] = events[i] ∧
        (applyCompletedIds events ids now)[i] ∈
          (classifyEvents (applyCompletedIds events ids now) now).past) := by
  refine ⟨by simp [applyCompletedIds_eq_map], ?_⟩
  intro i h1 h2
  have hmap : (applyCompletedIds events ids now)[i] = clampOne ids now events[i] := by
    simp only [applyCompletedIds_eq_map, List.getElem_map]
  rw [hmap]
  constructor
  · unfold clampOne
    split
    · exact min_le_left _ _
    · exact le_refl _
  · intro hpast
    have hnc : clampOne ids now events[i] = events[i] := by
      apply clampOne_of_neg
      simp only [Bool.and_eq_true, decide_eq_true_eq, not_and, not_lt]
      intro _
      exact hpast
    refine ⟨hnc, ?_⟩
    show _ ∈ List.filter _ _
    rw [List.mem_filter]
    constructor
    · rw [hnc, show events[i] = (applyCompletedIds events ids now)[i] from by rw [hmap, hnc]]
      exact List.getElem_mem h1
    · rw [hnc]
      simpa using hpast

/-- Witness for C3 at a concrete input: one past event (overridden), one
ongoing event. -/
theorem applyCompletedIds_monotone_witness :
    (applyCompletedIds [⟨"a", "A", 0, 10, false⟩, ⟨"b", "B", 20, 40, false⟩]
        ["a", "b"] 30).length = 2 ∧
    ((applyCompletedIds [⟨"a", "A", 0, 10, false⟩, ⟨"b", "B", 20, 40, false⟩]
        ["a", "b"] 30).get ⟨0, by decide⟩).«end» ≤ (10 : Int) := by
  have h := applyCompletedIds_monotone
    [⟨"a", "A", 0, 10, false⟩, ⟨"b", "B", 20, 40, false⟩] ["a", "b"] 30
  exact ⟨h.1, (h.2 0 (by decide) (by decide)).1⟩

/-! ## C10 — frame condition of the override clamp -/

/-- C10: `applyCompletedIds` modifies only the `end` and
manually-completed fields, and only of events whose id is in the override
set and whose `end > now`; every other event is returned identical, and
`id`, `title` and `start` are preserved for every event. -/
theorem applyCompletedIds_frame (events : List Event) (ids : List String) (now : Int) :
    (applyCompletedIds events ids now).length = events.length ∧
    ∀ i, (h1 : i < (applyCompletedIds events ids now).length) → (h2 : i < events.length) →
      ((applyCompletedIds events ids now)[i]).id = (events[i]).id ∧
      ((applyCompletedIds events ids now)[i]).title = (events[i]).title ∧
      ((applyCompletedIds events ids now)[i]).start = (events[i]).start ∧
      (¬(ids.contains (events[i]).id = true ∧ now < (events[i]).«end») →
        (applyCompletedIds events ids now)[i] = events[i]) := by
  refine ⟨by simp [applyCompletedIds_eq_map], ?_⟩
  intro i h1 h2
  have hmap : (applyCompletedIds events ids now)[i] = clampOne ids now events[i] := by
    simp only [applyCompletedIds_eq_map, List.getElem_map]
  rw [hmap]
  by_cases h : (ids.contains (events[i]).id && decide ((events[i]).«end» > now)) = true
  · rw [clampOne_of_pos h]
    refine ⟨rfl, rfl, rfl, ?_⟩
    intro hnot
    exact absurd (by simpa using h) hnot
  · rw [clampOne_of_neg h]
    exact ⟨rfl, rfl, rfl, fun _ => rfl⟩

/-- Witness for C10 at a concrete input. -/
theorem applyCompletedIds_frame_witness :
    ((applyCompletedIds [⟨"a", "A", 0, 10, false⟩] ["a"] 5).get ⟨0, by decide⟩).id = "a" := by
  have h := applyCompletedIds_frame [⟨"a", "A", 0, 10, false⟩] ["a"] 5
  exact (h.2 0 (by decide) (by decide)).1

/-! ## C8 — background and interactive contexts agree -/

/-- C8: on an identical event list and identical `now`, the background
context's current/next selection (`updateBadge`) equals the `current` and
`next` fields of the interactive context's `classifyEvents`. -/
theorem updateBadge_agrees_classifyEvents (events : List Event) (now : Int) :
    updateBadgeCurrent events now = (classifyEvents events now).current ∧
    updateBadgeNext events now = (classifyEvents events now).next := by
  constructor
  · rfl
  · show _ = (events.filter _).head?
    exact find?_head?_filter _ events

/-! ## C9 — 401 is distinct and retried exactly once -/

/-- C9: `fetchTodayEvents` fails with the distinct `UNAUTHORIZED` error
exactly when the HTTP status is 401; `loadAndRender` reacts to that
distinct error with exactly one invalidate/reacquire/retry cycle, after
which the retry's outcome — success or a recurring failure — is surfaced
to the caller rather than retried again, while any other first-fetch
error is rethrown with no retry. -/
theorem fetch_unauthorized_retry (s1 : Nat) (items1 : List RawEvent)
    (reauth : Except String String)
    (retry : String → Except FetchError (List NEvent)) :
    (fetchTodayEvents s1 items1 = .error .unauthorized ↔ s1 = 401) ∧
    (∀ evs, fetchTodayEvents s1 items1 = .ok evs →
      loadAndRender (fetchTodayEvents s1 items1) reauth retry = .ok evs) ∧
    (s1 = 401 → ∀ tok, reauth = .ok tok →
      loadAndRender (fetchTodayEvents s1 items1) reauth retry =
        match retry tok with
        | .ok evs => .ok evs
        | .error e => .error (.fetch e)) ∧
    (∀ e, e ≠ FetchError.unauthorized → fetchTodayEvents s1 items1 = .error e →
      loadAndRender (fetchTodayEvents s1 items1) reauth retry = .error (.fetch e)) := by
  refine ⟨?_, ?_, ?_, ?_⟩
  · unfold fetchTodayEvents
    split
    · simp_all
    · split <;> simp_all
  · intro evs hok
    rw [hok]
    rfl
  · intro h401 tok hre
    have hu : fetchTodayEvents s1 items1 = .error .unauthorized := by
      unfold fetchTodayEvents
      rw [if_pos h401]
    rw [hu, hre]
    rfl
  · intro e hne herr
    rw [herr]
    unfold loadAndRender
    cases e with
    | unauthorized => exact absurd rfl hne
    | apiError st => rfl

/-- Witness for C9: status 401 on the first fetch, a successful silent
re-auth, and a second 401 on the retry, which is surfaced unretried. -/
theorem fetch_unauthorized_retry_witness :
    fetchTodayEvents 401 [] = .error .unauthorized ∧
    loadAndRender (fetchTodayEvents 401 []) (.ok "tok2")
        (fun _ => fetchTodayEvents 401 []) =
      .error (.fetch .unauthorized) := by
  have h := fetch_unauthorized_retry 401 [] (.ok "tok2") (fun _ => fetchTodayEvents 401 [])
  refine ⟨h.1.mpr rfl, ?_⟩
  have h3 := h.2.2.1 rfl "tok2" rfl
  rw [h3, h.1.mpr rfl]

/-! ## C5 — the streak counter -/

/-- Unfolding of `updateStreak` with its `let`s spelled out. -/
theorem updateStreak_eq (s : StreakStore) (todayK yKey : String) :
    updateStreak s todayK yKey =
      if (getStreak s todayK).2 = todayK then ((getStreak s todayK).1, s)
      else
        (if (getStreak s todayK).2 = yKey then (getStreak s todayK).1 + 1 else 1,
         ⟨some (if (getStreak s todayK).2 = yKey then (getStreak s todayK).1 + 1 else 1),
          some todayK⟩) := rfl

/-- C5: calling `updateStreak` a second time on the resulting store with the
same day keys returns the same count; when the stored day is exactly the
yesterday key it returns the stored count plus 1; any other stored day —
including the never-before-seen empty store — yields 1; and whenever a
stored day differs from today, the new count is persisted together with
today's key. -/
theorem updateStreak_spec (s : StreakStore) (todayK yKey : String) :
    ((updateStreak (updateStreak s todayK yKey).2 todayK yKey).1 =
       (updateStreak s todayK yKey).1) ∧
    (∀ c, s.streak = some c → 0 < c → s.streakLastDate = some yKey →
      yKey ≠ todayK → yKey ≠ "" →
      (updateStreak s todayK yKey).1 = c + 1) ∧
    (∀ d, s.streakLastDate = some d → d ≠ todayK → d ≠ yKey → d ≠ "" →
      (updateStreak s todayK yKey).1 = 1) ∧
    ((updateStreak ⟨none, none⟩ todayK yKey).1 = 1) ∧
    (∀ d, s.streakLastDate = some d → d ≠ todayK → d ≠ "" →
      (updateStreak s todayK yKey).2 =
        ⟨some (updateStreak s todayK yKey).1, some todayK⟩) := by
  refine ⟨?_, ?_, ?_, ?_, ?_⟩
  · by_cases h : (getStreak s todayK).2 = todayK
    · have h1 : updateStreak s todayK yKey = ((getStreak s todayK).1, s) := by
        rw [updateStreak_eq, if_pos h]
      rw [h1]
      show (updateStreak s todayK yKey).1 = (getStreak s todayK).1
      rw [h1]
    · have h1 : updateStreak s todayK yKey =
          (if (getStreak s todayK).2 = yKey then (getStreak s todayK).1 + 1 else 1,
           ⟨some (if (getStreak s todayK).2 = yKey then (getStreak s todayK).1 + 1 else 1),
            some todayK⟩) := by
        rw [updateStreak_eq, if_neg h]
      generalize hn : (if (getStreak s todayK).2 = yKey
          then (getStreak s todayK).1 + 1 else 1) = n at h1
      have hn0 : ¬n = 0 := by
        rw [← hn]; split <;> omega
      rw [h1]
      show (updateStreak (⟨some n, some todayK⟩ : StreakStore) todayK yKey).1 = n
      have hgp : getStreak (⟨some n, some todayK⟩ : StreakStore) todayK = (n, todayK) := by
        show (if n = 0 then 1 else n, if todayK = "" then todayK else todayK) = (n, todayK)
        rw [if_neg hn0]
        by_cases he : todayK = ""
        · rw [if_pos he, he]
        · rw [if_neg he]
      rw [updateStreak_eq, hgp]
      simp
  · intro c hc hpos hlast hne hyne
    have hs : s = ⟨some c, some yKey⟩ := by
      cases s; simp_all
    subst hs
    have hg : getStreak (⟨some c, some yKey⟩ : StreakStore) todayK = (c, yKey) := by
      show (if c = 0 then 1 else c, if yKey = "" then todayK else yKey) = (c, yKey)
      rw [if_neg (by omega), if_neg hyne]
    rw [updateStreak_eq, hg]
    simp [hne]
  · intro d hd hdt hdy hde
    obtain ⟨st, sl⟩ := s
    have hsl : sl = some d := by simpa using hd
    subst hsl
    have hg2 : (getStreak (⟨st, some d⟩ : StreakStore) todayK).2 = d := by
      show (if d = "" then todayK else d) = d
      rw [if_neg hde]
    rw [updateStreak_eq, hg2]
    simp [hdt, hdy]
  · rw [updateStreak_eq]
    have hg : getStreak (⟨none, none⟩ : StreakStore) todayK = (1, todayK) := rfl
    rw [hg]
    simp
  · intro d hd hdt hde
    obtain ⟨st, sl⟩ := s
    have hsl : sl = some d := by simpa using hd
    subst hsl
    have hg2 : (getStreak (⟨st, some d⟩ : StreakStore) todayK).2 = d := by
      show (if d = "" then todayK else d) = d
      rw [if_neg hde]
    rw [updateStreak_eq, hg2]
    simp [hdt]

/-- Witness for C5: a store last updated "yesterday" with count 3 yields 4
and persists it with today's key. -/
theorem updateStreak_spec_witness :
    (updateStreak ⟨some 3, some "2026-10-11"⟩ "2026-10-12" "2026-10-11").1 = 4 ∧
    (updateStreak ⟨some 3, some "2026-10-11"⟩ "2026-10-12" "2026-10-11").2 =
      ⟨some 4, some "2026-10-12"⟩ := by
  have h := updateStreak_spec ⟨some 3, some "2026-10-11"⟩ "2026-10-12" "2026-10-11"
  have h1 := h.2.1 3 rfl (by decide) rfl (by decide) (by decide)
  refine ⟨h1, ?_⟩
  have h5 := h.2.2.2.2 "2026-10-11" rfl (by decide) (by decide)
  rw [h5, h1]

/-! ## C4 — eventProgress bounds -/

/-- C4, counterexample: in the degenerate case `end == start` with
`now == start`, `eventProgress` computes `0 / 0`, which is `NaN` and
propagates through `Math.max` and `Math.min` — the result is neither `0`
nor `100` nor any value in `[0, 100]`, contrary to the claim that the
degenerate case yields `100` when `now ≥ start`. -/
theorem eventProgress_nan_counterexample :
    eventProgress ⟨"a", "A", 0, 0, false⟩ 0 = JsNum.nan ∧
    eventProgress ⟨"a", "A", 0, 0, false⟩ 0 ≠ JsNum.num 100 := by
  constructor
  · show jsMin100 (jsMax0 (jsMul100 (jsDiv ((0 : ℚ) - 0) ((0 : ℚ) - 0)))) = JsNum.nan
    norm_num [jsDiv, jsMul100, jsMax0, jsMin100]
  · intro h
    have h0 : eventProgress ⟨"a", "A", 0, 0, false⟩ 0 = JsNum.nan := by
      show jsMin100 (jsMax0 (jsMul100 (jsDiv ((0 : ℚ) - 0) ((0 : ℚ) - 0)))) = JsNum.nan
      norm_num [jsDiv, jsMul100, jsMax0, jsMin100]
    rw [h0] at h
    exact JsNum.noConfusion h

/-- C4 (amended): for every event with `start ≤ end` and every `now`,
`eventProgress` yields a finite value in `[0, 100]` whenever
`start < end`, equal to `0` when `now < start` and `100` when
`now ≥ end`; in the degenerate case `end == start` it is `100` when
`now > start`, `0` when `now < start`, and `NaN` (not a number in
`[0, 100]`) when `now == start`. -/
theorem eventProgress_range (e : Event) (now : Int) (h : e.start ≤ e.«end») :
    (e.start < e.«end» → ∃ q : ℚ, eventProgress e now = .num q ∧ 0 ≤ q ∧ q ≤ 100) ∧
    (now < e.start → eventProgress e now = .num 0) ∧
    (e.start < e.«end» → e.«end» ≤ now → eventProgress e now = .num 100) ∧
    (e.start = e.«end» → e.start < now → eventProgress e now = .num 100) ∧
    (e.start = e.«end» → now = e.start → eventProgress e now = .nan) := by
  have hcast : ∀ a b : Int, a < b → (a : ℚ) < (b : ℚ) := fun a b hab => by
    exact_mod_cast hab
  refine ⟨?_, ?_, ?_, ?_, ?_⟩
  · intro hlt
    have htot : (0 : ℚ) < (e.«end» : ℚ) - (e.start : ℚ) := by
      have := hcast _ _ hlt
      linarith
    refine ⟨min 100 (max 0 (((now : ℚ) - e.start) / ((e.«end» : ℚ) - e.start) * 100)), ?_, ?_, ?_⟩
    · show jsMin100 (jsMax0 (jsMul100 (jsDiv ((now : ℚ) - e.start) ((e.«end» : ℚ) - e.start)))) = _
      rw [jsDiv, if_neg (by linarith)]
      rfl
    · exact le_min (by norm_num) (le_max_left 0 _)
    · exact min_le_left _ _
  · intro hnow
    have hnowq : ((now : ℚ) - e.start) < 0 := by
      have := hcast _ _ hnow
      linarith
    rcases lt_or_eq_of_le h with hlt | heq
    · have htot : (0 : ℚ) < (e.«end» : ℚ) - (e.start : ℚ) := by
        have := hcast _ _ hlt
        linarith
      show jsMin100 (jsMax0 (jsMul100 (jsDiv ((now : ℚ) - e.start) ((e.«end» : ℚ) - e.start)))) = _
      rw [jsDiv, if_neg (by linarith)]
      show JsNum.num (min 100 (max 0 (_ / _ * 100))) = _
      have hq : ((now : ℚ) - e.start) / ((e.«end» : ℚ) - e.start) * 100 ≤ 0 := by
        apply mul_nonpos_of_nonpos_of_nonneg
        · exact le_of_lt (div_neg_of_neg_of_pos hnowq htot)
        · norm_num
      rw [max_eq_left hq, min_eq_right (by norm_num)]
    · have htot : (e.«end» : ℚ) - (e.start : ℚ) = 0 := by
        rw [heq]; ring
      show jsMin100 (jsMax0 (jsMul100 (jsDiv ((now : ℚ) - e.start) ((e.«end» : ℚ) - e.start)))) = _
      rw [jsDiv, if_pos htot, if_neg (by linarith), if_pos hnowq]
      rfl
  · intro hlt hend
    have htot : (0 : ℚ) < (e.«end» : ℚ) - (e.start : ℚ) := by
      have := hcast _ _ hlt
      linarith
    have hendq : ((e.«end» : ℚ) - e.start) ≤ ((now : ℚ) - e.start) := by
      have : (e.«end» : ℚ) ≤ (now : ℚ) := by exact_mod_cast hend
      linarith
    show jsMin100 (jsMax0 (jsMul100 (jsDiv ((now : ℚ) - e.start) ((e.«end» : ℚ) - e.start)))) = _
    rw [jsDiv, if_neg (by linarith)]
    show JsNum.num (min 100 (max 0 (_ / _ * 100))) = _
    have h1 : (1 : ℚ) ≤ ((now : ℚ) - e.start) / ((e.«end» : ℚ) - e.start) :=
      (one_le_div htot).mpr hendq
    have h100 : (100 : ℚ) ≤ ((now : ℚ) - e.start) / ((e.«end» : ℚ) - e.start) * 100 := by
      nlinarith
    rw [max_eq_right (by linarith), min_eq_left h100]
  · intro heq hnow
    have htot : (e.«end» : ℚ) - (e.start : ℚ) = 0 := by
      rw [heq]; ring
    have hnowq : (0 : ℚ) < ((now : ℚ) - e.start) := by
      have := hcast _ _ hnow
      linarith
    show jsMin100 (jsMax0 (jsMul100 (jsDiv ((now : ℚ) - e.start) ((e.«end» : ℚ) - e.start)))) = _
    rw [jsDiv, if_pos htot, if_pos hnowq]
    rfl
  · intro heq hnow
    have htot : (e.«end» : ℚ) - (e.start : ℚ) = 0 := by
      rw [heq]; ring
    have hnowq : ((now : ℚ) - e.start) = 0 := by
      rw [hnow]; ring
    show jsMin100 (jsMax0 (jsMul100 (jsDiv ((now : ℚ) - e.start) ((e.«end» : ℚ) - e.start)))) = _
    rw [jsDiv, if_pos htot, if_neg (by linarith), if_neg (by linarith)]
    rfl

/-- Witness for C4 at a concrete event: a 09:00–10:00 event at 09:30 is
half way, within bounds; at 08:00 it is 0; at 11:00 it is 100. -/
theorem eventProgress_range_witness :
    (∃ q : ℚ, eventProgress ⟨"a", "A", 540, 600, false⟩ 570 = .num q ∧ 0 ≤ q ∧ q ≤ 100) ∧
    eventProgress ⟨"a", "A", 540, 600, false⟩ 480 = .num 0 ∧
    eventProgress ⟨"a", "A", 540, 600, false⟩ 660 = .num 100 := by
  have h1 := eventProgress_range ⟨"a", "A", 540, 600, false⟩ 570 (by norm_num)
  have h2 := eventProgress_range ⟨"a", "A", 540, 600, false⟩ 480 (by norm_num)
  have h3 := eventProgress_range ⟨"a", "A", 540, 600, false⟩ 660 (by norm_num)
  exact ⟨h1.1 (by norm_num), h2.2.1 (by norm_num), h3.2.2.1 (by norm_num) (by norm_num)⟩

/-! ## C1 — classification buckets -/

/-- C1, counterexample: with two overlapping events sorted by start and
`now` inside both, the non-first overlapping event is placed in none of
the four buckets — `classifyEvents` is not a partition of the input. -/
theorem classifyEvents_partition_counterexample :
    sortedByStart [⟨"a", "A", 0, 10, false⟩, ⟨"b", "B", 1, 10, false⟩] ∧
    (⟨"b", "B", 1, 10, false⟩ : Event).start ≤ 5 ∧
    (5 : Int) < (⟨"b", "B", 1, 10, false⟩ : Event).«end» ∧
    (classifyEvents [⟨"a", "A", 0, 10, false⟩, ⟨"b", "B", 1, 10, false⟩] 5).current ≠
      some ⟨"b", "B", 1, 10, false⟩ ∧
    (classifyEvents [⟨"a", "A", 0, 10, false⟩, ⟨"b", "B", 1, 10, false⟩] 5).next ≠
      some ⟨"b", "B", 1, 10, false⟩ ∧
    (⟨"b", "B", 1, 10, false⟩ : Event) ∉
      (classifyEvents [⟨"a", "A", 0, 10, false⟩, ⟨"b", "B", 1, 10, false⟩] 5).upcoming ∧
    (⟨"b", "B", 1, 10, false⟩ : Event) ∉
      (classifyEvents [⟨"a", "A", 0, 10, false⟩, ⟨"b", "B", 1, 10, false⟩] 5).past := by
  decide

/-- C1 (amended): for every list of pairwise-distinct events with
`start < end`, sorted by start ascending, `classifyEvents` places each
input event in at most one bucket; every event lies in exactly one bucket
except a non-first event satisfying `start ≤ now < end`, which lies in
none; and `current` is non-`none` iff some event satisfies
`start ≤ now < end`. -/
theorem classifyEvents_buckets (events : List Event) (now : Int)
    (hsort : sortedByStart events)
    (hval : ∀ e ∈ events, e.start < e.«end»)
    (hnd : events.Nodup) :
    ((classifyEvents events now).current.isSome ↔
      ∃ e ∈ events, e.start ≤ now ∧ now < e.«end») ∧
    ∀ e ∈ events,
      inBuckets e (classifyEvents events now) =
        if e.start ≤ now ∧ now < e.«end» ∧ (classifyEvents events now).current ≠ some e
        then 0 else 1 := by
  have hcur : (classifyEvents events now).current =
      events.find? (fun x => decide (x.start ≤ now) && decide (x.«end» > now)) := rfl
  have hnext : (classifyEvents events now).next =
      (events.filter (fun x => decide (x.start > now))).head? := rfl
  have hup : (classifyEvents events now).upcoming =
      (events.filter (fun x => decide (x.start > now))).tail := rfl
  have hpast : (classifyEvents events now).past =
      events.filter (fun x => decide (x.«end» ≤ now)) := rfl
  constructor
  · rw [hcur, List.find?_isSome]
    simp only [Bool.and_eq_true, decide_eq_true_eq, gt_iff_lt]
  · intro e he
    unfold inBuckets
    simp only [hcur, hnext, hup, hpast]
    have hFnd : (events.filter (fun x => decide (x.start > now))).Nodup := hnd.filter _
    by_cases hfut : now < e.start
    · have heF : e ∈ events.filter (fun x => decide (x.start > now)) := by
        rw [List.mem_filter]
        exact ⟨he, by simpa using hfut⟩
      have hnotp : ¬(e.start ≤ now) := not_le.mpr hfut
      have hcure :
          ¬(events.find? (fun x => decide (x.start ≤ now) && decide (x.«end» > now)) =
            some e) := by
        intro hfind
        have hp := List.find?_some hfind
        simp only [Bool.and_eq_true, decide_eq_true_eq] at hp
        exact hnotp hp.1
      have hpaste : e ∉ events.filter (fun x => decide (x.«end» ≤ now)) := by
        rw [List.mem_filter]
        rintro ⟨-, hb⟩
        have hlt := hval e he
        simp only [decide_eq_true_eq] at hb
        omega
      rcases hF : events.filter (fun x => decide (x.start > now)) with _ | ⟨a, t⟩
      · rw [hF] at heF
        cases heF
      · rw [hF] at heF hFnd
        simp only [hF]
        rcases List.mem_cons.mp heF with rfl | het
        · have hat : e ∉ t := (List.nodup_cons.mp hFnd).1
          simp [hcure, hat, hpaste, hnotp]
        · have hae : ¬(a = e) := fun hh => (List.nodup_cons.mp hFnd).1 (hh ▸ het)
          simp [hcure, het, hpaste, hnotp, hae]
    · have hstart : e.start ≤ now := not_lt.mp hfut
      have heFnot : e ∉ events.filter (fun x => decide (x.start > now)) := by
        rw [List.mem_filter]
        rintro ⟨-, hb⟩
        simp only [decide_eq_true_eq] at hb
        omega
      have hnexte : ¬((events.filter (fun x => decide (x.start > now))).head? = some e) := by
        intro hh
        exact heFnot (List.mem_of_mem_head? (by simp [hh]))
      have hupe : e ∉ (events.filter (fun x => decide (x.start > now))).tail := fun hh =>
        heFnot (List.tail_subset _ hh)
      by_cases hpastc : e.«end» ≤ now
      · have hpe : e ∈ events.filter (fun x => decide (x.«end» ≤ now)) := by
          rw [List.mem_filter]
          exact ⟨he, by simpa using hpastc⟩
        have hcure :
            ¬(events.find? (fun x => decide (x.start ≤ now) && decide (x.«end» > now)) =
              some e) := by
          intro hfind
          have hp := List.find?_some hfind
          simp only [Bool.and_eq_true, decide_eq_true_eq] at hp
          omega
        rw [if_neg hcure, if_neg hnexte, if_neg hupe, if_pos hpe,
          if_neg (fun hcond => absurd hcond.2.1 (not_lt.mpr hpastc))]
      · have hnow : now < e.«end» := not_le.mp hpastc
        have hpnot : e ∉ events.filter (fun x => decide (x.«end» ≤ now)) := by
          rw [List.mem_filter]
          rintro ⟨-, hb⟩
          simp only [decide_eq_true_eq] at hb
          omega
        by_cases hcure :
            events.find? (fun x => decide (x.start ≤ now) && decide (x.«end» > now)) =
              some e
        · rw [if_pos hcure, if_neg hnexte, if_neg hupe, if_neg hpnot,
            if_neg (fun hcond => hcond.2.2 hcure)]
        · rw [if_neg hcure, if_neg hnexte, if_neg hupe, if_neg hpnot,
            if_pos ⟨hstart, hnow, hcure⟩]

/-- Witness for C1 at a concrete sorted list: a current event and a future
event, each in exactly one bucket. -/
theorem classifyEvents_buckets_witness :
    (classifyEvents [⟨"a", "A", 0, 10, false⟩, ⟨"b", "B", 20, 30, false⟩] 5).current.isSome ∧
    inBuckets ⟨"a", "A", 0, 10, false⟩
      (classifyEvents [⟨"a", "A", 0, 10, false⟩, ⟨"b", "B", 20, 30, false⟩] 5) = 1 ∧
    inBuckets ⟨"b", "B", 20, 30, false⟩
      (classifyEvents [⟨"a", "A", 0, 10, false⟩, ⟨"b", "B", 20, 30, false⟩] 5) = 1 := by
  have h := classifyEvents_buckets [⟨"a", "A", 0, 10, false⟩, ⟨"b", "B", 20, 30, false⟩] 5
    (by decide) (by decide) (by decide)
  refine ⟨h.1.mpr (by decide), ?_, ?_⟩
  · rw [h.2 ⟨"a", "A", 0, 10, false⟩ (by decide)]
    decide
  · rw [h.2 ⟨"b", "B", 20, 30, false⟩ (by decide)]
    decide

/-! ## C6 — the normalizer does not enforce `start < end` -/

/-- C6, counterexample: a raw event whose `end.dateTime` denotes an
earlier instant than its `start.dateTime` is happily normalized into an
event with `start > end` — the `start < end` invariant is not enforced by
`normalizeEvent`. -/
theorem normalizeEvent_order_counterexample :
    normalizeEvent ⟨"a", some "Meeting", some ⟨some "200"⟩, some ⟨some "100"⟩⟩ =
      some ⟨"a", "Meeting", some 200, some 100⟩ ∧
    ¬((200 : Int) < 100) := by
  constructor
  · decide
  · decide

/-- C6 (amended): the normalizer performs no ordering check — whenever it
returns an event, that event's `start` and `end` are exactly the parses of
the raw `dateTime` strings, whatever their order; `start < end` is not
guaranteed. -/
theorem normalizeEvent_no_order_check (raw : RawEvent) (ev : NEvent)
    (h : normalizeEvent raw = some ev) :
    ev.start = newDate ((raw.start.bind RawStartEnd.dateTime).getD "") ∧
    ev.«end» = newDate ((raw.«end».bind RawStartEnd.dateTime).getD "") := by
  unfold normalizeEvent at h
  by_cases hc : (jsFalsy (raw.start.bind RawStartEnd.dateTime) ||
      jsFalsy (raw.«end».bind RawStartEnd.dateTime)) = true
  · rw [if_pos hc] at h
    cases h
  · rw [if_neg hc] at h
    injection h with h
    subst h
    exact ⟨rfl, rfl⟩

/-- Witness for C6: the inverted-order raw event from the counterexample
run through the amended statement. -/
theorem normalizeEvent_no_order_check_witness :
    (⟨"a", "Meeting", some 200, some 100⟩ : NEvent).start = newDate "200" ∧
    (⟨"a", "Meeting", some 200, some 100⟩ : NEvent).«end» = newDate "100" := by
  have h := normalizeEvent_no_order_check
    ⟨"a", some "Meeting", some ⟨some "200"⟩, some ⟨some "100"⟩⟩
    ⟨"a", "Meeting", some 200, some 100⟩ (by decide)
  exact h

/-! ## C7 — skip behaviour of the normalizer -/

/-- C7, counterexample: a present but unparseable timestamp does not
result in a skip — the normalizer still returns an event, carrying an
Invalid-Date `start`, contrary to the claim that an invalid timestamp is
skipped. -/
theorem normalizeEvent_invalid_counterexample :
    normalizeEvent ⟨"b", none, some ⟨some "garbage"⟩, some ⟨some "100"⟩⟩ =
      some ⟨"b", "(no title)", none, some 100⟩ := by
  decide

/-- C7 (amended): the normalizer returns the skip sentinel exactly when
`start?.dateTime` or `end?.dateTime` is absent or empty; it defaults the
title to the fixed placeholder when the summary is absent; and it never
fails: a missing timestamp is a skip, while a present but invalid
timestamp yields an event carrying an Invalid-Date instant, not an
error. -/
theorem normalizeEvent_skip_spec (raw : RawEvent) :
    (normalizeEvent raw = none ↔
      (jsFalsy (raw.start.bind RawStartEnd.dateTime) = true ∨
       jsFalsy (raw.«end».bind RawStartEnd.dateTime) = true)) ∧
    (jsFalsy raw.summary = true →
      ∀ ev, normalizeEvent raw = some ev → ev.title = "(no title)") ∧
    (∀ s, raw.start.bind RawStartEnd.dateTime = some s → s ≠ "" →
      jsFalsy (raw.«end».bind RawStartEnd.dateTime) = false →
      ∃ ev, normalizeEvent raw = some ev ∧ ev.start = newDate s) := by
  refine ⟨?_, ?_, ?_⟩
  · unfold normalizeEvent
    by_cases hc : (jsFalsy (raw.start.bind RawStartEnd.dateTime) ||
        jsFalsy (raw.«end».bind RawStartEnd.dateTime)) = true
    · rw [if_pos hc]
      exact ⟨fun _ => by simpa using hc, fun _ => rfl⟩
    · rw [if_neg hc]
      constructor
      · intro h
        cases h
      · intro h
        exact absurd (by simpa using h : (jsFalsy (raw.start.bind RawStartEnd.dateTime) ||
          jsFalsy (raw.«end».bind RawStartEnd.dateTime)) = true) hc
  · intro hsum ev h
    unfold normalizeEvent at h
    by_cases hc : (jsFalsy (raw.start.bind RawStartEnd.dateTime) ||
        jsFalsy (raw.«end».bind RawStartEnd.dateTime)) = true
    · rw [if_pos hc] at h
      cases h
    · rw [if_neg hc] at h
      injection h with h
      subst h
      show (if jsFalsy raw.summary then "(no title)" else raw.summary.getD "") = "(no title)"
      rw [if_pos hsum]
  · intro s hs hse hendok
    have hsf : jsFalsy (raw.start.bind RawStartEnd.dateTime) = false := by
      rw [hs]
      simp [jsFalsy, hse]
    have hc : ¬(jsFalsy (raw.start.bind RawStartEnd.dateTime) ||
        jsFalsy (raw.«end».bind RawStartEnd.dateTime)) = true := by
      rw [hsf, hendok]
      exact Bool.false_ne_true
    refine ⟨{ id := raw.id,
              title := if jsFalsy raw.summary then "(no title)" else raw.summary.getD "",
              start := newDate ((raw.start.bind RawStartEnd.dateTime).getD ""),
              «end» := newDate ((raw.«end».bind RawStartEnd.dateTime).getD "") }, ?_, ?_⟩
    · unfold normalizeEvent
      rw [if_neg hc]
    · show newDate ((raw.start.bind RawStartEnd.dateTime).getD "") = newDate s
      rw [hs]
      rfl

/-- Witness for C7: an all-day raw event (no `dateTime`) is skipped; a
summary-less raw event gets the placeholder title; a garbage timestamp
still yields an event whose `start` is the Invalid-Date parse. -/
theorem normalizeEvent_skip_spec_witness :
    normalizeEvent ⟨"c", some "AllDay", none, none⟩ = none ∧
    (⟨"d", "(no title)", some 7, some 9⟩ : NEvent).title = "(no title)" ∧
    (∃ ev, normalizeEvent ⟨"g", none, some ⟨some "garbage"⟩, some ⟨some "100"⟩⟩ = some ev ∧
      ev.start = newDate "garbage") := by
  refine ⟨?_, ?_, ?_⟩
  · exact (normalizeEvent_skip_spec ⟨"c", some "AllDay", none, none⟩).1.mpr (Or.inl rfl)
  · exact (normalizeEvent_skip_spec ⟨"d", none, some ⟨some "7"⟩, some ⟨some "9"⟩⟩).2.1 rfl
      ⟨"d", "(no title)", some 7, some 9⟩ (by decide)
  · exact (normalizeEvent_skip_spec ⟨"g", none, some ⟨some "garbage"⟩, some ⟨some "100"⟩⟩).2.2
      "garbage" rfl (by decide) (by decide)

end DayFlow
